import Mathlib

/-!
# Verification of the pyphysio core against its specification

Shallow embedding, in Lean 4, of the parts of the pyphysio/pyHRV repository
that the specification's testable properties talk about:

* the per-signal cache and the `CacheableDataCalc.get` protocol
  (`pyHRV/Cache.py`, `PyHRV/DataSeries.py`);
* the `Signal` hierarchy: `EvenlySignal` and `UnevenlySignal` construction
  validation, `get_times`, `resample`, `segment_time`, `segment_idx`
  (`pyPhysio/Signal.py`);
* the segmentation policies `LengthSegments`, `TimeSegments`,
  `ExistingSegments`, `FromEventsSegments`
  (`pyPhysio/segmentation/SegmentsGenerators.py`).

Numeric sample values and times are modelled over `ℚ` (the Python code uses
floats; none of the verified properties depends on rounding of arithmetic,
only on comparisons, slicing and exact ratios).  Fallible Python code
(assertions, `TypeError`, `IndexError`) is modelled with `Except String`
or `Option`; `StopIteration` of the generator protocol is modelled by a
dedicated result constructor.
-/

namespace PyPhysio

/-! ## Cache engine: `pyHRV/Cache.py` and `PyHRV/DataSeries.py`

A calculator (`CacheableDataCalc` subclass) is a stable identifier `cid`
together with a pure compute function `_calculate_data`.  A `DataSeries`
carries the raw series and a private cache `_cache`, a mapping from `cid`
to the previously computed value. -/

/-- A concrete `CacheableDataCalc` subclass, from `pyHRV/Cache.py`:
`cid()` returns the class name suffixed with `"_cn"` (we store the result
directly) and `_calculate_data` is the pure computation of the subclass. -/
structure CacheableDataCalc (Data Params Value : Type) where
  cid : String
  calculate_data : Data → Params → Value

/-- `DataSeries` from `PyHRV/DataSeries.py`: the wrapped series plus the
private `_cache` dictionary, modelled as an association list from
calculator identifier to cached value. -/
structure DataSeries (Data Value : Type) where
  series : Data
  cache : List (String × Value)

variable {Data Params Value : Type}

/-- `DataSeries.cache_check`: whether the cache holds an entry for the
calculator's identifier. -/
def DataSeries.cache_check (d : DataSeries Data Value)
    (c : CacheableDataCalc Data Params Value) : Bool :=
  (d.cache.lookup c.cid).isSome

/-- `DataSeries.cache_get_data`: the cached entry for the calculator, or
`none` (Python `None`) when the cache has no valid entry. -/
def DataSeries.cache_get_data (d : DataSeries Data Value)
    (c : CacheableDataCalc Data Params Value) : Option Value :=
  if d.cache_check c then d.cache.lookup c.cid else none

/-- `DataSeries.cache_pre_calc_data`: computes
`calculator.get(self, params, use_cache=False)` — which is exactly
`_calculate_data(self, params)` — and stores it under the calculator's
identifier.  Returns the updated series; the single `_calculate_data`
invocation this performs is accounted for by `CacheableDataCalc.get`. -/
def DataSeries.cache_pre_calc_data (d : DataSeries Data Value)
    (c : CacheableDataCalc Data Params Value) (params : Params) :
    DataSeries Data Value :=
  { d with cache := (c.cid, c.calculate_data d.series params) :: d.cache }

/-- `CacheableDataCalc.get(data, params, use_cache)` from `pyHRV/Cache.py`
lines 26–40 (the `PyHRV/DataSeries.py` version, lines 79–86, has the same
semantics).  Returns the produced value (`none` would be a cache miss after
population, which the theorems show impossible), the resulting series
state, and the number of `_calculate_data` invocations the call performed. -/
def CacheableDataCalc.get (c : CacheableDataCalc Data Params Value)
    (data : DataSeries Data Value) (params : Params) (use_cache : Bool) :
    Option Value × DataSeries Data Value × Nat :=
  if use_cache then
    if data.cache_check c then (data.cache_get_data c, data, 0)
    else
      let data' := data.cache_pre_calc_data c params
      (data'.cache_get_data c, data', 1)
  else (some (c.calculate_data data.series params), data, 1)

/-- Truthiness of a fallible computation: whether a Python call returned
normally (`Except.ok`) or raised (`Except.error`). -/
def exceptOk {ε α : Type} : Except ε α → Bool
  | .ok _ => true
  | .error _ => false

/-! ## Signals: `pyPhysio/Signal.py`

Sample values and times are rationals.  Construction validation
(`assert` statements in `Signal.__new__` / `UnevenlySignal.__new__`) is
modelled by constructors returning `Except String`. -/

/-- `np.round` for a rational argument: round half to even, as numpy does
(used by `UnevenlySignal.__new__` to convert instants to indices). -/
def np_round (x : ℚ) : ℤ :=
  let f : ℤ := ⌊x⌋
  let r : ℚ := x - f
  if r < 1/2 then f
  else if 1/2 < r then f + 1
  else if 2 ∣ f then f else f + 1

/-- `np.diff`: consecutive differences of a sequence. -/
def np_diff (xs : List ℚ) : List ℚ :=
  List.zipWith (fun a b => b - a) xs (xs.drop 1)

/-- The monotonicity test of `UnevenlySignal.__new__`
(`len(np.where(np.diff(x) <= 0)[0]) == 0`): every consecutive difference
is strictly positive. -/
def strictly_increasing (xs : List ℚ) : Bool :=
  (np_diff xs).all (fun d => 0 < d)

/-- `EvenlySignal` from `pyPhysio/Signal.py`: sample values, sampling
frequency, semantic nature tag and start time. -/
structure EvenlySignal where
  values : List ℚ
  sampling_freq : ℚ
  signal_nature : String
  start_time : ℚ
deriving Repr, DecidableEq

/-- `EvenlySignal(values, sampling_freq, signal_nature, start_time)`:
`Signal.__new__` asserts `sampling_freq > 0` ("The sampling frequency
cannot be zero or negative"); no other validation is performed. -/
def EvenlySignal.make (values : List ℚ) (sampling_freq : ℚ)
    (signal_nature : String) (start_time : ℚ) : Except String EvenlySignal :=
  if 0 < sampling_freq then
    .ok ⟨values, sampling_freq, signal_nature, start_time⟩
  else .error "AssertionError: The sampling frequency cannot be zero or negative"

/-- `EvenlySignal.get_times`:
`np.arange(len(self)) / self.get_sampling_freq() + self.get_start_time()`. -/
def EvenlySignal.get_times (s : EvenlySignal) : List ℚ :=
  (List.range s.values.length).map
    (fun i : ℕ => (i : ℚ) / s.sampling_freq + s.start_time)

/-- `Signal.get_values`. -/
def EvenlySignal.get_values (s : EvenlySignal) : List ℚ := s.values

/-- `Signal.get_start_time`. -/
def EvenlySignal.get_start_time (s : EvenlySignal) : ℚ := s.start_time

/-- `Signal.get_end_time`: `self.get_times()[-1]`.  Python raises an
`IndexError` on an empty signal; the model returns a default there, and
every theorem touching `get_end_time` assumes a non-empty signal. -/
def EvenlySignal.get_end_time (s : EvenlySignal) : ℚ :=
  s.get_times.getLastD 0

/-- Python extended slicing `xs[::k]` for a non-negative step `k ≥ 1`:
every `k`-th element starting from the first. -/
def sliceStep : List ℚ → ℕ → List ℚ
  | [], _ => []
  | x :: xs, k => x :: sliceStep (xs.drop (k - 1)) k
termination_by xs _ => xs.length
decreasing_by simp; omega

/-- `EvenlySignal.resample(fout, kind)` (`pyPhysio/Signal.py` lines
105–138).  When `fout < fsamp` and the ratio `fsamp / fout` is an exact
integer, the source decimates: `self.get_values()[::int(ratio)]`.
Otherwise it interpolates with scipy (floating point, outside the model):
the samples that branch would produce are taken as the argument
`interp_values`.  The claims only exercise the decimation branch.  The
`EvenlySignal` constructor invoked at the end re-asserts `fout > 0`,
which holds in every modelled run. -/
def EvenlySignal.resample (s : EvenlySignal) (fout : ℚ)
    (interp_values : List ℚ) : EvenlySignal :=
  if fout < s.sampling_freq ∧ (s.sampling_freq / fout).den = 1 then
    ⟨sliceStep s.values (s.sampling_freq / fout).num.toNat, fout,
      s.signal_nature, s.start_time⟩
  else ⟨interp_values, fout, s.signal_nature, s.start_time⟩

/-- `EvenlySignal.segment_time(t_start, t_stop)` (`pyPhysio/Signal.py`
lines 140–180).  `t_stop = None` defaults to the last sample time.  If the
requested interval lies entirely outside the signal
(`t_start > end_time or t_stop < start_time`) the original signal itself
is returned after a printed diagnostic.  Otherwise the portion between the
ceiled sample indexes is cut, and the new start time is the time of the
first sample kept. -/
def EvenlySignal.segment_time (s : EvenlySignal) (t_start : ℚ)
    (t_stop? : Option ℚ) : EvenlySignal :=
  let signal_times := s.get_times
  let t_stop := t_stop?.getD (signal_times.getLastD 0)
  if t_start > s.get_end_time ∨ t_stop < s.get_start_time then s
  else
    let idx_start0 : ℤ := ⌈(t_start - s.get_start_time) * s.sampling_freq⌉
    let idx_start : ℤ := if idx_start0 < 0 then 0 else idx_start0
    let idx_stop : ℤ := ⌈(t_stop - s.get_start_time) * s.sampling_freq⌉
    let portion_values := (s.values.drop idx_start.toNat).take (idx_stop - idx_start).toNat
    let t_0 := signal_times.getD idx_start.toNat 0
    ⟨portion_values, s.sampling_freq, s.signal_nature, t_0⟩

/-- `EvenlySignal.segment_idx(idx_start, idx_stop)` (`pyPhysio/Signal.py`
lines 182–210): the slice `values[idx_start:idx_stop]` with the new start
time set to `times[idx_start]` (an `IndexError` when `idx_start` is out of
bounds; the theorems restrict to valid ranges). -/
def EvenlySignal.segment_idx (s : EvenlySignal) (idx_start : ℕ)
    (idx_stop? : Option ℕ) : EvenlySignal :=
  let idx_stop := idx_stop?.getD s.values.length
  let portion_values := (s.values.drop idx_start).take (idx_stop - idx_start)
  let t_0 := s.get_times.getD idx_start 0
  ⟨portion_values, s.sampling_freq, s.signal_nature, t_0⟩

/-- The `x_type` argument of `UnevenlySignal.__new__`. -/
inductive XType where
  | indices
  | instants
deriving Repr, DecidableEq

/-- `UnevenlySignal`: values plus the strictly monotonic sample indices
stored in `ph["x_values"]`. -/
structure UnevenlySignal where
  values : List ℚ
  sampling_freq : ℚ
  signal_nature : String
  start_time : ℚ
  indices : List ℚ
deriving Repr, DecidableEq

/-- `UnevenlySignal.__new__` (`pyPhysio/Signal.py` lines 246–276), with the
assertions in source order: length match between `x_values` and `values`;
strict monotonicity of the given indices/instants; for instants with an
explicitly supplied start time, `start_time <= instants[0]` ("One or more
instants are before the starting time"), instants being converted to
indices by `np.round((instants - start_time) * sampling_freq)`; finally
`Signal.__new__` asserts `sampling_freq > 0`.  An empty instants list
makes `instants[0]` raise an `IndexError`. -/
def UnevenlySignal.make (values : List ℚ) (sampling_freq : ℚ)
    (signal_nature : String) (start_time : Option ℚ) (x_values : List ℚ)
    (x_type : XType) : Except String UnevenlySignal :=
  if x_values.length = values.length then
    match x_type with
    | XType.indices =>
      if strictly_increasing x_values then
        if 0 < sampling_freq then
          .ok ⟨values, sampling_freq, signal_nature, start_time.getD 0, x_values⟩
        else .error "AssertionError: The sampling frequency cannot be zero or negative"
      else .error "AssertionError: Given indices are not strictly monotonic"
    | XType.instants =>
      if strictly_increasing x_values then
        match x_values.head? with
        | none => .error "IndexError: index 0 is out of bounds"
        | some first =>
          match start_time with
          | none =>
            if 0 < sampling_freq then
              .ok ⟨values, sampling_freq, signal_nature, first,
                x_values.map (fun t => ((np_round ((t - first) * sampling_freq) : ℤ) : ℚ))⟩
            else .error "AssertionError: The sampling frequency cannot be zero or negative"
          | some st =>
            if st ≤ first then
              if 0 < sampling_freq then
                .ok ⟨values, sampling_freq, signal_nature, st,
                  x_values.map (fun t => ((np_round ((t - st) * sampling_freq) : ℤ) : ℚ))⟩
              else .error "AssertionError: The sampling frequency cannot be zero or negative"
            else .error "AssertionError: One or more instants are before the starting time"
      else .error "AssertionError: Given instants are not strictly monotonic"
  else .error "AssertionError: Length mismatch"

/-- `UnevenlySignal.get_times`:
`self.ph["x_values"] / self.get_sampling_freq() + self.get_start_time()`. -/
def UnevenlySignal.get_times (u : UnevenlySignal) : List ℚ :=
  u.indices.map (fun i => i / u.sampling_freq + u.start_time)

/-- `UnevenlySignal.get_indices`. -/
def UnevenlySignal.get_indices (u : UnevenlySignal) : List ℚ := u.indices

/-- `Signal.get_start_time` for the unevenly-sampled variant. -/
def UnevenlySignal.get_start_time (u : UnevenlySignal) : ℚ := u.start_time

/-- `Signal.get_end_time` for the unevenly-sampled variant (last time;
Python raises `IndexError` on an empty signal). -/
def UnevenlySignal.get_end_time (u : UnevenlySignal) : ℚ :=
  u.get_times.getLastD 0

/-- `UnevenlySignal.segment_time(t_start, t_stop)` (`pyPhysio/Signal.py`
lines 338–377).  The out-of-range guard returns the original signal
itself.  The in-range branch cuts a portion and then calls
`UnevenlySignal(portion_values, ..., instants=portion_times)`; but
`UnevenlySignal.__new__` has no parameter named `instants`, so Python
raises a `TypeError` before any signal is produced — the whole in-range
branch therefore raises, which the model records as an error. -/
def UnevenlySignal.segment_time (u : UnevenlySignal) (t_start : ℚ)
    (t_stop? : Option ℚ) : Except String UnevenlySignal :=
  let signal_times := u.get_times
  let t_stop := t_stop?.getD (signal_times.getLastD 0)
  if t_start > u.get_end_time ∨ t_stop < u.get_start_time then .ok u
  else .error "TypeError: unexpected keyword argument instants"

/-- `UnevenlySignal.segment_idx(idx_start, idx_stop)` (`pyPhysio/Signal.py`
lines 379–413).  The arguments live in the *index space* of the signal:
`i_start` is the first position whose stored index is `≥ idx_start`
(`np.where(signal_indices >= idx_start)[0][0]`) and `i_stop` the last
position whose stored index is `< idx_stop`
(`np.where(signal_indices < idx_stop)[0][-1]`); an empty `np.where` result
raises `IndexError`.  The portion `[i_start : i_stop + 1]` is cut, its
indices rebased by subtracting the first one, the new start time is the
time of the first retained sample, and the result is built through
`UnevenlySignal.__new__` with `x_type='indices'`. -/
def UnevenlySignal.segment_idx (u : UnevenlySignal) (idx_start : ℚ)
    (idx_stop? : Option ℚ) : Except String UnevenlySignal :=
  let idx_stop := idx_stop?.getD (u.values.length : ℚ)
  let starts := (List.range u.indices.length).filter
    (fun i => decide (idx_start ≤ u.indices.getD i 0))
  let stops := (List.range u.indices.length).filter
    (fun i => decide (u.indices.getD i 0 < idx_stop))
  match starts.head?, stops.getLast? with
  | some i_start, some i_stop =>
    let portion_values := (u.values.drop i_start).take (i_stop + 1 - i_start)
    let portion_indices := (u.indices.drop i_start).take (i_stop + 1 - i_start)
    let t_0 := u.get_times.getD i_start 0
    let rebased := portion_indices.map (fun x => x - portion_indices.headD 0)
    UnevenlySignal.make portion_values u.sampling_freq u.signal_nature
      (some t_0) rebased XType.indices
  | _, _ => .error "IndexError: index 0 is out of bounds"

/-! ## Segmentation: `pyPhysio/segmentation/SegmentsGenerators.py`

The policies' `init_segmentation` / `next_segment` methods are translated
from the source.  The `Segment` class and its `is_empty` method live in
`pyPhysio/BaseSegmentation.py`, which is not under `src/`; they are
modelled from the spec (see `Segment`). -/

/-- Modelled from the spec: the `Segment` class of
`pyPhysio/BaseSegmentation.py` (not under `src/`) — "begin index, end
index (both in sample-index space of the bound signal), optional label, a
reference to the signal it was cut from".  The referenced signal is
represented by its length, the only piece of it the generators' emptiness
logic consults. -/
structure Segment where
  begin_ : ℤ
  end_ : ℤ
  label : String
  siglen : ℕ
deriving Repr, DecidableEq

/-- Modelled from the spec: `Segment.is_empty` (in the missing
`BaseSegmentation.py`).  Spec §3: "empty when begin == end"; spec §4.3:
exhaustion happens "when the next segment would be empty (i.e., start ≥
end given the bound signal's length)" — the lazily materialised slice of
the bound signal is empty exactly when `begin ≥ min(end, len(signal))`. -/
def Segment.is_empty (s : Segment) : Bool :=
  min s.end_ (s.siglen : ℤ) ≤ s.begin_

/-- The cursor-advancing loop shared by `TimeSegments.next_segment` and
`FromEventsSegments.next_segment`:
`while i < len(signal) and signal.get_times(i) <= bound: i += 1`, with the
iteration count bounded by the remaining length (`fuel`). -/
def scan_loop (times : List ℚ) (bound : ℚ) : ℕ → ℤ → ℤ
  | 0, i => i
  | fuel + 1, i =>
    if i < (times.length : ℤ) ∧ times.getD i.toNat 0 ≤ bound then
      scan_loop times bound fuel (i + 1)
    else i

/-- The scan starting at cursor `i`: enough fuel for the loop to run until
`i` reaches `len(times)`. -/
def scan_times (times : List ℚ) (bound : ℚ) (i : ℤ) : ℤ :=
  scan_loop times bound ((times.length : ℤ) - i).toNat i

/-- The parameter dictionary of `LengthSegments`: mandatory `step`
(asserted present in `__init__`), optional `width` and `start`. -/
structure LengthParams where
  step : ℤ
  width : Option ℤ
  start : Option ℤ
deriving Repr, DecidableEq

/-- The iteration state of `LengthSegments` after `init_segmentation`:
`_step`, `_width`, the cursor `_i`, and the bound signal (its length). -/
structure LengthState where
  step : ℤ
  width : ℤ
  i : ℤ
  siglen : ℕ
deriving Repr, DecidableEq

/-- `LengthSegments.init_segmentation` (`SegmentsGenerators.py` lines
22–30): raises `ValueError` when no signal is bound (preview mode);
otherwise `_width` defaults to `_step` when `width` is absent or `0`, and
the cursor starts at `start` (default `0`). -/
def LengthSegments.init_segmentation (params : LengthParams)
    (signal_len : Option ℕ) : Except String LengthState :=
  match signal_len with
  | none => .error "ValueError: cannot preview the segments without a signal here"
  | some l =>
    .ok ⟨params.step,
      (match params.width with
       | none => params.step
       | some w => if w = 0 then params.step else w),
      params.start.getD 0, l⟩

/-- `LengthSegments.next_segment` (`SegmentsGenerators.py` lines 32–38):
remember `o = _i`, advance `_i` by `_step`, build `Segment(o, o + _width)`;
an empty segment raises `StopIteration` (modelled by `none`). -/
def LengthSegments.next_segment (st : LengthState) :
    Option (Segment × LengthState) :=
  let o := st.i
  let st' : LengthState := ⟨st.step, st.width, st.i + st.step, st.siglen⟩
  let s : Segment := ⟨o, o + st.width, "", st.siglen⟩
  if s.is_empty then none else some (s, st')

/-- Iterating `LengthSegments.next_segment` to exhaustion (or until the
fuel runs out), collecting the yielded segments in order. -/
def runLength : ℕ → LengthState → List Segment
  | 0, _ => []
  | fuel + 1, st =>
    match LengthSegments.next_segment st with
    | none => []
    | some (s, st') => s :: runLength fuel st'

/-- The parameter dictionary of `TimeSegments`: mandatory `step`, optional
`width` and `start` (all in signal time units except the index `start`). -/
structure TimeParams where
  step : ℚ
  width : Option ℚ
  start : Option ℤ
deriving Repr, DecidableEq

/-- The iteration state of `TimeSegments`: the bound signal's sample times
(`none` in preview mode), `_step`, `_width` and the cursor `_i`. -/
structure TimeState where
  sigTimes : Option (List ℚ)
  step : ℚ
  width : ℚ
  i : ℤ
deriving Repr, DecidableEq

/-- The outcome of one `next_segment` call of a policy whose source can
emit a diagnostic: either a yielded segment with the successor state, or
`StopIteration` (`stop`), whose flag records whether the `PhUI.w` warning
was printed first. -/
inductive SegStep (σ : Type) where
  | yield (s : Segment) (st : σ)
  | stop (warned : Bool)
deriving Repr, DecidableEq

/-- `TimeSegments.init_segmentation` (`SegmentsGenerators.py` lines
54–59): no bound-signal check here; `_width` defaults to `_step` when
absent or `0`, the cursor starts at `start` (default `0`). -/
def TimeSegments.init_segmentation (params : TimeParams)
    (sigTimes : Option (List ℚ)) : TimeState :=
  ⟨sigTimes, params.step,
    (match params.width with
     | none => params.step
     | some w => if w = 0 then params.step else w),
    params.start.getD 0⟩

/-- `TimeSegments.next_segment` (`SegmentsGenerators.py` lines 61–75).
Unbound (preview) state: print a `PhUI.w` warning and raise
`StopIteration` — modelled as `.stop true`.  Otherwise scan the cursor
`_i` past the step boundary, scan `e` from `b = _i` to the width boundary,
and yield `Segment(b, e)` unless it is empty (then `StopIteration`,
`.stop false`). -/
def TimeSegments.next_segment (st : TimeState) : SegStep TimeState :=
  match st.sigTimes with
  | none => .stop true
  | some times =>
    let b := st.i
    let i' := scan_times times (times.getD b.toNat 0 + st.step) st.i
    let e := scan_times times (times.getD b.toNat 0 + st.width) b
    let s : Segment := ⟨b, e, "", times.length⟩
    if s.is_empty then .stop false
    else .yield s ⟨st.sigTimes, st.step, st.width, i'⟩

/-- The iteration state of `ExistingSegments`: the wrapped window list
`_wins`, the cursor `_ind`, and the bound signal (length) if any. -/
structure ExistingState where
  wins : List Segment
  ind : ℕ
  siglen : Option ℕ
deriving Repr, DecidableEq

/-- `ExistingSegments.next_segment` (`SegmentsGenerators.py` lines
93–106).  While windows remain: with a bound signal the window is rebound
to it (`Segment(w.begin, w.end, w.label, self._signal)`) and an empty
rebound window ends iteration; without a signal the window is passed
through unchecked.  (On exhaustion the source also resets `_ind` to `0`
for restartability, which the modelled claims do not use.) -/
def ExistingSegments.next_segment (st : ExistingState) :
    Option (Segment × ExistingState) :=
  match st.wins.get? st.ind with
  | some w =>
    match st.siglen with
    | some l =>
      let w' : Segment := ⟨w.begin_, w.end_, w.label, l⟩
      if w'.is_empty then none
      else some (w', ⟨st.wins, st.ind + 1, st.siglen⟩)
    | none => some (w, ⟨st.wins, st.ind + 1, st.siglen⟩)
  | none => none

/-- The iteration state of `FromEventsSegments`: the bound signal's sample
times (`none` in preview mode), the event signal (its instants and its
label values), the sample cursor `_i`, the event cursor `_s` and the
current boundary `_t`.  (`init_segmentation` also stores the unused
`include_baseline_name` parameter, which `next_segment` never reads.) -/
structure EventsState where
  sigTimes : Option (List ℚ)
  evTimes : List ℚ
  evValues : List String
  i : ℤ
  s : ℕ
  t : ℚ
deriving Repr, DecidableEq

/-- `FromEventsSegments.init_segmentation` (`SegmentsGenerators.py` lines
124–129): event cursor and sample cursor at `0`, `_t` at the first event
instant. -/
def FromEventsSegments.init_segmentation (evTimes : List ℚ)
    (evValues : List String) (sigTimes : Option (List ℚ)) : EventsState :=
  ⟨sigTimes, evTimes, evValues, 0, 0, evTimes.getD 0 0⟩

/-- `FromEventsSegments.next_segment` (`SegmentsGenerators.py` lines
131–152).  Unbound: warning plus `StopIteration`.  Otherwise, while
samples remain: between two events, scan the sample cursor up to the next
event instant and yield the traversed range labelled with the current
event's value — with **no** emptiness check; after the last event, yield
the remaining samples; past the last event or past the signal,
`StopIteration`. -/
def FromEventsSegments.next_segment (st : EventsState) : SegStep EventsState :=
  match st.sigTimes with
  | none => .stop true
  | some times =>
    let l : ℤ := times.length
    if st.i < l then
      if (st.s : ℤ) < (st.evTimes.length : ℤ) - 1 then
        let o := st.i
        let t' := st.evTimes.getD (st.s + 1) 0
        let i' := scan_times times t' st.i
        let w : Segment := ⟨o, i', st.evValues.getD st.s "", times.length⟩
        .yield w ⟨st.sigTimes, st.evTimes, st.evValues, i', st.s + 1, t'⟩
      else if (st.s : ℤ) < (st.evTimes.length : ℤ) then
        let w : Segment := ⟨st.i, l, st.evValues.getD st.s "", times.length⟩
        .yield w ⟨st.sigTimes, st.evTimes, st.evValues, st.i, st.s + 1, st.t⟩
      else .stop false
    else .stop false

/-! ## PSD-family calculators: `pyHRV/Cache.py`

Each `_calculate_data` runs a spectral estimator (scipy / the `spectrum`
package — floating-point numerics outside the model) and then returns
`(bands, powers / np.max(powers), sum(powers) / len(powers))`.  The
estimator stage's outputs `bands` and `powers` are taken as arguments;
the returned triple is translated from the source. -/

/-- `np.max` of a vector: the greatest element (numpy raises on an empty
vector; the model returns a default there and the theorems assume a
non-empty vector). -/
def np_max : List ℚ → ℚ
  | [] => 0
  | x :: r => r.foldl max x

/-- `PSDWelch1Calc._calculate_data` (`pyHRV/Cache.py` lines 97–99), after
the Welch estimation and `np.sqrt`: `powers` is the square-rooted Welch
spectrum and the triple `(bands, powers / np.max(powers),
sum(powers) / len(powers))` is returned. -/
def PSDWelch1Calc.calculate_data (bands powers : List ℚ) :
    List ℚ × List ℚ × ℚ :=
  (bands, powers.map (fun p => p / np_max powers),
    powers.sum / (powers.length : ℚ))

/-- `PSDLombscargleCalc._calculate_data` (`pyHRV/Cache.py` lines 113–122),
after the Lomb-Scargle evaluation: `powers` is
`np.sqrt(4 * (lombscargle(...) / len(data)))` and the same normalised
triple is returned. -/
def PSDLombscargleCalc.calculate_data (bands powers : List ℚ) :
    List ℚ × List ℚ × ℚ :=
  (bands, powers.map (fun p => p / np_max powers),
    powers.sum / (powers.length : ℚ))

/-- `PSDFFTCalc._calculate_data` (`pyHRV/Cache.py` lines 136–149), after
the windowed FFT: `powers` is the positive half of the squared spectrum
and the same normalised triple is returned. -/
def PSDFFTCalc.calculate_data (bands powers : List ℚ) :
    List ℚ × List ℚ × ℚ :=
  (bands, powers.map (fun p => p / np_max powers),
    powers.sum / (powers.length : ℚ))

/-- `PSDAr2Calc._calculate_data` (`pyHRV/Cache.py` lines 210–232), after
the autoregressive fit (`spectrum.aryule` / `arma2psd`): `powers` is the
kept half of the AR spectrum of the last fitted order and the same
normalised triple is returned (`PSDAr1Calc`, lines 185–196, ends with the
identical statement). -/
def PSDAr2Calc.calculate_data (bands powers : List ℚ) :
    List ℚ × List ℚ × ℚ :=
  (bands, powers.map (fun p => p / np_max powers),
    powers.sum / (powers.length : ℚ))

/-! ## Theorems -/

/-! ### C1 — cache at-most-once -/

/-- C1.  For every cache-capable signal and concrete calculator, two
successive `get(S, p, use_cache=True)` calls on a signal whose cache does
not yet hold the calculator's entry execute `_calculate_data` exactly once
in total; both calls return the same value, which is exactly the entry the
final cache holds for the calculator (reference stability of the cached
result object). -/
theorem cache_at_most_once {Data Params Value : Type}
    (c : CacheableDataCalc Data Params Value) (d : DataSeries Data Value)
    (p : Params) (hfresh : d.cache_check c = false) :
    (c.get d p true).2.2 + (c.get (c.get d p true).2.1 p true).2.2 = 1 ∧
    (c.get d p true).1 = some (c.calculate_data d.series p) ∧
    (c.get (c.get d p true).2.1 p true).1 = (c.get d p true).1 ∧
    (c.get (c.get d p true).2.1 p true).2.1.cache_get_data c = (c.get d p true).1 := by
  simp only [CacheableDataCalc.get, DataSeries.cache_check,
    DataSeries.cache_get_data, DataSeries.cache_pre_calc_data] at *
  simp [hfresh, List.lookup, DataSeries.cache_check]

/-- Witness for C1 at a concrete calculator and a concrete fresh series. -/
def wCalc : CacheableDataCalc ℕ Unit ℕ := ⟨"FFTCalc_cn", fun n _ => n + 1⟩

/-- Witness data for C1/C2: a series with an empty cache. -/
def wData : DataSeries ℕ ℕ := ⟨5, []⟩

/-- C1 witness: the at-most-once property evaluated on `wCalc`/`wData`. -/
theorem cache_at_most_once_witness :
    (wCalc.get wData () true).2.2 + (wCalc.get (wCalc.get wData () true).2.1 () true).2.2 = 1 ∧
    (wCalc.get wData () true).1 = some (wCalc.calculate_data wData.series ()) ∧
    (wCalc.get (wCalc.get wData () true).2.1 () true).1 = (wCalc.get wData () true).1 ∧
    (wCalc.get (wCalc.get wData () true).2.1 () true).2.1.cache_get_data wCalc = (wCalc.get wData () true).1 :=
  cache_at_most_once wCalc wData () rfl

/-! ### C2 — cache bypass purity -/

/-- C2.  `get(S, p, use_cache=False)` computes fresh (one
`_calculate_data` invocation, returning its result directly) and returns
the signal's cache mapping completely unchanged; a subsequent cached
`get` on a signal whose cache is still empty for the calculator triggers
a fresh computation (one more invocation). -/
theorem cache_bypass_purity {Data Params Value : Type}
    (c : CacheableDataCalc Data Params Value) (d : DataSeries Data Value)
    (p : Params) :
    c.get d p false = (some (c.calculate_data d.series p), d, 1) ∧
    (d.cache_check c = false →
      (c.get (c.get d p false).2.1 p true).2.2 = 1) := by
  constructor
  · simp [CacheableDataCalc.get]
  · intro hfresh
    simp [CacheableDataCalc.get, hfresh]

/-- C2 witness: bypass purity evaluated on `wCalc`/`wData`, with the
empty-cache hypothesis discharged by computation. -/
theorem cache_bypass_purity_witness :
    wCalc.get wData () false = (some (wCalc.calculate_data wData.series ()), wData, 1) ∧
    (wCalc.get (wCalc.get wData () false).2.1 () true).2.2 = 1 :=
  ⟨(cache_bypass_purity wCalc wData ()).1,
    (cache_bypass_purity wCalc wData ()).2 rfl⟩

/-! ### C3 — construction validation -/

/-- Helper: a successful `UnevenlySignal` construction implies every
validation condition held: positive sampling frequency, matching lengths,
strictly monotonic x values, and (for instants with an explicit start
time) the start time not after the first instant. -/
theorem UnevenlySignal.make_ok_implies (v : List ℚ) (fsamp : ℚ)
    (nm : String) (st? : Option ℚ) (xs : List ℚ) (xt : XType)
    (hok : exceptOk (UnevenlySignal.make v fsamp nm st? xs xt) = true) :
    0 < fsamp ∧ xs.length = v.length ∧ strictly_increasing xs = true ∧
    (∀ t0 hd rest, xt = XType.instants → st? = some t0 → xs = hd :: rest →
      t0 ≤ hd) := by
  unfold UnevenlySignal.make at hok
  split at hok
  case isFalse => simp [exceptOk] at hok
  case isTrue hlen =>
    split at hok
    case h_1 =>
      split at hok
      case isFalse => simp [exceptOk] at hok
      case isTrue hmono =>
        split at hok
        case isFalse => simp [exceptOk] at hok
        case isTrue hf =>
          exact ⟨hf, hlen, hmono, fun t0 hd rest hxt => by cases hxt⟩
    case h_2 =>
      split at hok
      case isFalse => simp [exceptOk] at hok
      case isTrue hmono =>
        split at hok
        case h_1 => simp [exceptOk] at hok
        case h_2 first hfirst =>
          split at hok
          case h_1 =>
            split at hok
            case isFalse => simp [exceptOk] at hok
            case isTrue hf =>
              refine ⟨hf, hlen, hmono, fun t0 hd rest _ hst _ => ?_⟩
              simp_all
          case h_2 st hst =>
            split at hok
            case isFalse => simp [exceptOk] at hok
            case isTrue hle =>
              split at hok
              case isFalse => simp [exceptOk] at hok
              case isTrue hf =>
                refine ⟨hf, hlen, hmono, ?_⟩
                intro t0 hd rest _ hst' hxs
                subst hxs
                simp only [List.head?_cons] at hfirst
                injection hst' with h1
                injection hfirst with h2
                linarith

/-- Helper: every permutation of the decreasing sequence `[3, 2, 1]`
other than the sorted `[1, 2, 3]` fails the strict-monotonicity test. -/
theorem not_strictly_increasing_of_perm (p : List ℚ)
    (hp : p.Perm [3, 2, 1]) (hne : p ≠ [1, 2, 3]) :
    strictly_increasing p = false := by
  have hmem : p ∈ ([3, 2, 1] : List ℚ).permutations' :=
    List.mem_permutations'.mpr hp
  have hlist : ([3, 2, 1] : List ℚ).permutations' =
      [[3, 2, 1], [2, 3, 1], [2, 1, 3], [3, 1, 2], [1, 3, 2], [1, 2, 3]] := by
    norm_num [List.permutations', List.permutations'Aux]
  rw [hlist] at hmem
  simp only [List.mem_cons, List.not_mem_nil, or_false] at hmem
  rcases hmem with h | h | h | h | h | h <;> subst h <;>
    first
      | exact absurd rfl hne
      | norm_num [strictly_increasing, np_diff]

/-- C3 counterexample.  The claim requires construction to fail "for all
permutations of a 3-element decreasing sequence", but the sorted
permutation `[1, 2, 3]` of the decreasing `[3, 2, 1]` is strictly
monotonic and construction succeeds, producing a signal. -/
theorem sorted_permutation_constructs :
    UnevenlySignal.make [7, 8, 9] 1000 "" none [1, 2, 3] XType.instants =
      .ok ⟨[7, 8, 9], 1000, "", 1, [0, 1000, 2000]⟩ ∧
    ([(1 : ℚ), 2, 3]).Perm [3, 2, 1] := by
  constructor
  · have hmono : strictly_increasing [1, 2, 3] = true := by
      norm_num [strictly_increasing, np_diff]
    simp [UnevenlySignal.make, hmono]
    norm_num [np_round]
  · decide

/-- C3 amended.  Signal construction fails fast (no signal object is
produced) whenever the sampling frequency is not strictly positive, the
x-values length differs from the values length, the indices/instants are
not strictly monotonically increasing — in particular for every
permutation of the 3-element decreasing sequence `[3, 2, 1]` *except the
fully sorted one* — or a supplied start time is after the first
instant. -/
theorem construction_validation (v xs : List ℚ) (fsamp t0 : ℚ)
    (nm : String) (st? : Option ℚ) (xt : XType) :
    (fsamp ≤ 0 → exceptOk (EvenlySignal.make v fsamp nm t0) = false) ∧
    (fsamp ≤ 0 → exceptOk (UnevenlySignal.make v fsamp nm st? xs xt) = false) ∧
    (xs.length ≠ v.length →
      exceptOk (UnevenlySignal.make v fsamp nm st? xs xt) = false) ∧
    (strictly_increasing xs = false →
      exceptOk (UnevenlySignal.make v fsamp nm st? xs xt) = false) ∧
    (∀ hd rest, xs = hd :: rest → hd < t0 →
      exceptOk (UnevenlySignal.make v fsamp nm (some t0) xs XType.instants) = false) ∧
    (∀ p : List ℚ, p.Perm [3, 2, 1] → p ≠ [1, 2, 3] →
      exceptOk (UnevenlySignal.make v fsamp nm st? p xt) = false) := by
  refine ⟨?_, ?_, ?_, ?_, ?_, ?_⟩
  · intro h
    unfold EvenlySignal.make
    rw [if_neg (not_lt.mpr h)]
    rfl
  · intro h
    cases hok : exceptOk (UnevenlySignal.make v fsamp nm st? xs xt) with
    | false => rfl
    | true =>
      have H := UnevenlySignal.make_ok_implies v fsamp nm st? xs xt hok
      linarith [H.1]
  · intro h
    cases hok : exceptOk (UnevenlySignal.make v fsamp nm st? xs xt) with
    | false => rfl
    | true =>
      exact absurd (UnevenlySignal.make_ok_implies v fsamp nm st? xs xt hok).2.1 h
  · intro h
    cases hok : exceptOk (UnevenlySignal.make v fsamp nm st? xs xt) with
    | false => rfl
    | true =>
      have H := (UnevenlySignal.make_ok_implies v fsamp nm st? xs xt hok).2.2.1
      rw [H] at h
      cases h
  · intro hd rest hxs hlt
    cases hok : exceptOk (UnevenlySignal.make v fsamp nm (some t0) xs XType.instants) with
    | false => rfl
    | true =>
      have H := (UnevenlySignal.make_ok_implies v fsamp nm (some t0) xs
        XType.instants hok).2.2.2 t0 hd rest rfl rfl hxs
      linarith
  · intro p hp hne
    cases hok : exceptOk (UnevenlySignal.make v fsamp nm st? p xt) with
    | false => rfl
    | true =>
      have H := (UnevenlySignal.make_ok_implies v fsamp nm st? p xt hok).2.2.1
      rw [not_strictly_increasing_of_perm p hp hne] at H
      cases H

/-- C3 witness: the amended validation facts evaluated at concrete
inputs — zero sampling frequency, a non-monotonic permutation of
`[3, 2, 1]`, and a start time after the first instant. -/
theorem construction_validation_witness :
    exceptOk (EvenlySignal.make [1, 2] 0 "" 0) = false ∧
    exceptOk (UnevenlySignal.make [1, 2, 3] 1000 "" none [3, 1, 2] XType.instants) = false ∧
    exceptOk (UnevenlySignal.make [4, 5, 6] 1000 "" (some 10) [1, 2, 3] XType.instants) = false := by
  refine ⟨(construction_validation [1, 2] [] 0 0 "" none XType.indices).1 le_rfl, ?_, ?_⟩
  · exact (construction_validation [1, 2, 3] [3, 1, 2] 1000 0 "" none
      XType.instants).2.2.2.2.2 [3, 1, 2] (by decide) (by decide)
  · exact (construction_validation [4, 5, 6] [1, 2, 3] 1000 10 "" (some 10)
      XType.instants).2.2.2.2.1 1 [2, 3] rfl (by norm_num)

/-! ### C4 — out-of-range segmentation is a safe no-op -/

/-- C4.  For both signal variants, `segment_time` with a requested
interval entirely outside the signal's time range (start after the
signal's end, or stop before its start) returns the original signal
itself — same identity and content — and raises no error (for the
unevenly-sampled variant the call returns normally, `Except.ok`). -/
theorem segment_time_out_of_range (e : EvenlySignal) (u : UnevenlySignal)
    (t1 t2 t3 t4 : ℚ) (he : e.values ≠ []) (hu : u.values ≠ [])
    (houtE : t1 > e.get_end_time ∨ t2 < e.get_start_time)
    (houtU : t3 > u.get_end_time ∨ t4 < u.get_start_time) :
    e.segment_time t1 (some t2) = e ∧ u.segment_time t3 (some t4) = .ok u := by
  constructor
  · unfold EvenlySignal.segment_time
    simp only [Option.getD_some]
    rw [if_pos houtE]
  · unfold UnevenlySignal.segment_time
    simp only [Option.getD_some]
    rw [if_pos houtU]

/-- C4 witness: a 2-sample evenly signal ending at time 1 and a 1-sample
unevenly signal ending at time 0, both segmented from time 5 onwards,
are returned unchanged. -/
theorem segment_time_out_of_range_witness :
    (⟨[1, 2], 1, "", 0⟩ : EvenlySignal).segment_time 5 (some 6) = ⟨[1, 2], 1, "", 0⟩ ∧
    (⟨[1], 1, "", 0, [0]⟩ : UnevenlySignal).segment_time 5 (some 6) =
      .ok ⟨[1], 1, "", 0, [0]⟩ :=
  segment_time_out_of_range ⟨[1, 2], 1, "", 0⟩ ⟨[1], 1, "", 0, [0]⟩ 5 6 5 6
    (by simp) (by simp)
    (Or.inl (by norm_num [EvenlySignal.get_end_time, EvenlySignal.get_times,
      List.range_succ]))
    (Or.inl (by norm_num [UnevenlySignal.get_end_time, UnevenlySignal.get_times]))

/-! ### C5 — exact-ratio decimation -/

/-- Helper: the length of the Python slice `xs[::k]` is `⌈len(xs) / k⌉`,
i.e. `(len(xs) + k - 1) / k` in natural division. -/
theorem sliceStep_length_le (k : ℕ) (hk : 0 < k) :
    ∀ (n : ℕ) (xs : List ℚ), xs.length ≤ n →
      (sliceStep xs k).length = (xs.length + k - 1) / k := by
  intro n
  induction n with
  | zero =>
    intro xs hxs
    have hnil : xs = [] := List.eq_nil_of_length_eq_zero (Nat.le_zero.mp hxs)
    subst hnil
    simp [sliceStep]
    symm
    apply Nat.div_eq_of_lt
    omega
  | succ n ih =>
    intro xs hxs
    match xs with
    | [] =>
      simp [sliceStep]
      symm
      apply Nat.div_eq_of_lt
      omega
    | x :: rest =>
      rw [sliceStep]
      simp only [List.length_cons]
      rw [ih (rest.drop (k - 1))
        (by simp only [List.length_drop]; simp only [List.length_cons] at hxs; omega)]
      simp only [List.length_drop]
      rcases le_or_lt (k - 1) rest.length with hle | hlt
      · have h1 : rest.length - (k - 1) + k - 1 = rest.length := by omega
        have h2 : rest.length + 1 + k - 1 = rest.length + k := by omega
        rw [h1, h2, Nat.add_div_right _ hk]
      · have h1 : rest.length - (k - 1) + k - 1 = k - 1 := by omega
        have h2 : rest.length + 1 + k - 1 = rest.length + k := by omega
        rw [h1, h2, Nat.add_div_right _ hk,
          Nat.div_eq_of_lt (by omega : k - 1 < k),
          Nat.div_eq_of_lt (by omega : rest.length < k)]

/-- Helper: `sliceStep` length, stated directly. -/
theorem sliceStep_length (xs : List ℚ) (k : ℕ) (hk : 0 < k) :
    (sliceStep xs k).length = (xs.length + k - 1) / k :=
  sliceStep_length_le k hk xs.length xs le_rfl

/-- C5.  Resampling a 1000 Hz evenly-sampled signal to 100 Hz takes the
exact-integer-ratio decimation path — the values become every 10th sample
starting from sample 0 (`values[::10]`) — and the result has sampling
frequency exactly 100 and length `⌈L/10⌉ = (L + 9) / 10`. -/
theorem resample_exact_decimation (s : EvenlySignal) (interp : List ℚ)
    (hf : s.sampling_freq = 1000) :
    (s.resample 100 interp).sampling_freq = 100 ∧
    (s.resample 100 interp).values = sliceStep s.values 10 ∧
    (s.resample 100 interp).values.length = (s.values.length + 9) / 10 := by
  have h10 : ((1000 : ℚ) / 100) = 10 := by norm_num
  have hcond : (100 : ℚ) < s.sampling_freq ∧ (s.sampling_freq / 100).den = 1 := by
    rw [hf, h10]
    norm_num
  have hnum : (s.sampling_freq / 100).num.toNat = 10 := by
    rw [hf, h10]
    rfl
  unfold EvenlySignal.resample
  rw [if_pos hcond, hnum]
  exact ⟨rfl, rfl, sliceStep_length s.values 10 (by norm_num)⟩

/-- C5 witness: an 11-sample 1000 Hz signal decimated to 100 Hz — the
frequency-1000 hypothesis is discharged by `rfl`. -/
theorem resample_exact_decimation_witness :
    ((⟨[1, 2, 3, 4, 5, 6, 7, 8, 9, 10, 11], 1000, "", 0⟩ : EvenlySignal).resample
      100 []).sampling_freq = 100 ∧
    ((⟨[1, 2, 3, 4, 5, 6, 7, 8, 9, 10, 11], 1000, "", 0⟩ : EvenlySignal).resample
      100 []).values = sliceStep [1, 2, 3, 4, 5, 6, 7, 8, 9, 10, 11] 10 ∧
    ((⟨[1, 2, 3, 4, 5, 6, 7, 8, 9, 10, 11], 1000, "", 0⟩ : EvenlySignal).resample
      100 []).values.length = (([1, 2, 3, 4, 5, 6, 7, 8, 9, 10, 11] : List ℚ).length + 9) / 10 :=
  resample_exact_decimation ⟨[1, 2, 3, 4, 5, 6, 7, 8, 9, 10, 11], 1000, "", 0⟩ [] rfl

/-! ### C6 — segment non-emptiness across policies -/

/-- C6 counterexample.  The event-boundary policy yields a segment with
`begin == end`: sample times `[10, 11]` all lie after the second event
instant `1`, so the first `next_segment` call scans nowhere and yields
`Segment(0, 0)` — with no emptiness check — instead of ending iteration. -/
theorem from_events_yields_empty :
    FromEventsSegments.next_segment
        (FromEventsSegments.init_segmentation [0, 1] ["a", "b"] (some [10, 11])) =
      .yield ⟨0, 0, "a", 2⟩ ⟨some [10, 11], [0, 1], ["a", "b"], 0, 1, 1⟩ ∧
    (Segment.mk 0 0 "a" 2).begin_ = (Segment.mk 0 0 "a" 2).end_ := by
  constructor
  · rfl
  · rfl

/-- C6 amended.  The fixed-sample-count, fixed-time and explicit-list
(with a bound signal) policies never yield a segment with
`begin == end` — an attempted empty segment ends iteration instead; the
event-boundary policy, however, can yield an empty segment (`begin ==
end`) when no sample timestamp lies at or before the next event
instant. -/
theorem segment_nonemptiness :
    (∀ (st st' : LengthState) (s : Segment),
      LengthSegments.next_segment st = some (s, st') →
        s.begin_ < s.end_ ∧ s.is_empty = false) ∧
    (∀ (st st' : TimeState) (s : Segment),
      TimeSegments.next_segment st = .yield s st' →
        s.begin_ < s.end_ ∧ s.is_empty = false) ∧
    (∀ (st st' : ExistingState) (s : Segment) (l : ℕ), st.siglen = some l →
      ExistingSegments.next_segment st = some (s, st') →
        s.begin_ < s.end_ ∧ s.is_empty = false) ∧
    (∃ (st st' : EventsState) (s : Segment),
      FromEventsSegments.next_segment st = .yield s st' ∧ s.begin_ = s.end_) := by
  refine ⟨?_, ?_, ?_, ?_⟩
  · intro st st' s h
    simp only [LengthSegments.next_segment] at h
    split at h
    case isTrue => cases h
    case isFalse hemp =>
      injection h with h1
      injection h1 with h2 h3
      subst h2
      simp only [Segment.is_empty, decide_eq_true_eq, not_le] at hemp
      refine ⟨?_, ?_⟩
      · exact lt_of_lt_of_le hemp (min_le_left _ _)
      · simp only [Segment.is_empty, decide_eq_false_iff_not, not_le]
        exact hemp
  · intro st st' s h
    match hsig : st.sigTimes with
    | none =>
      simp only [TimeSegments.next_segment, hsig] at h
      cases h
    | some times =>
      simp only [TimeSegments.next_segment, hsig] at h
      split at h
      case isTrue => cases h
      case isFalse hemp =>
        injection h with h1
        subst h1
        simp only [Segment.is_empty, decide_eq_true_eq, not_le] at hemp
        refine ⟨lt_of_lt_of_le hemp (min_le_left _ _), ?_⟩
        simp only [Segment.is_empty, decide_eq_false_iff_not, not_le]
        exact hemp
  · intro st st' s l hl h
    match hw : st.wins.get? st.ind with
    | none =>
      simp only [ExistingSegments.next_segment, hw] at h
      cases h
    | some w =>
      simp only [ExistingSegments.next_segment, hw, hl] at h
      split at h
      case isTrue => cases h
      case isFalse hemp =>
        injection h with h1
        injection h1 with h2 h3
        subst h2
        simp only [Segment.is_empty, decide_eq_true_eq, not_le] at hemp
        refine ⟨lt_of_lt_of_le hemp (min_le_left _ _), ?_⟩
        simp only [Segment.is_empty, decide_eq_false_iff_not, not_le]
        exact hemp
  · exact ⟨⟨some [5, 6], [0, 1], ["x", "y"], 0, 0, 0⟩,
      ⟨some [5, 6], [0, 1], ["x", "y"], 0, 1, 1⟩, ⟨0, 0, "x", 2⟩, rfl, rfl⟩

/-- C6 witness: the non-emptiness facts of the amended claim evaluated on
concrete yields of each checked policy. -/
theorem segment_nonemptiness_witness :
    ((Segment.mk 0 64 "" 256).begin_ < (Segment.mk 0 64 "" 256).end_ ∧
      (Segment.mk 0 64 "" 256).is_empty = false) ∧
    ((Segment.mk 0 3 "" 8).begin_ < (Segment.mk 0 3 "" 8).end_ ∧
      (Segment.mk 0 3 "" 8).is_empty = false) ∧
    ((Segment.mk 1 2 "w" 4).begin_ < (Segment.mk 1 2 "w" 4).end_ ∧
      (Segment.mk 1 2 "w" 4).is_empty = false) := by
  refine ⟨?_, ?_, ?_⟩
  · exact segment_nonemptiness.1 ⟨64, 64, 0, 256⟩ ⟨64, 64, 64, 256⟩
      ⟨0, 64, "", 256⟩ (by decide)
  · exact segment_nonemptiness.2.1
      ⟨some [0, 1, 2, 3, 4, 5, 6, 7], 2, 2, 0⟩
      ⟨some [0, 1, 2, 3, 4, 5, 6, 7], 2, 2, 3⟩ ⟨0, 3, "", 8⟩ (by
        simp [TimeSegments.next_segment, scan_times, scan_loop, Segment.is_empty]
        norm_num)
  · exact segment_nonemptiness.2.2.1
      ⟨[⟨1, 2, "w", 0⟩], 0, some 4⟩ ⟨[⟨1, 2, "w", 0⟩], 1, some 4⟩
      ⟨1, 2, "w", 4⟩ 4 rfl (by decide)

/-! ### C7 — fixed-length-by-sample-count policy -/

/-- C7.  The fixed-length-by-sample-count policy: with a bound signal,
`init_segmentation` defaults the width to the step (both for an absent
and for a zero `width` parameter) and starts the cursor at offset 0;
`next_segment` yields `[i, i + W)` and advances the cursor by `S`, and is
exhausted exactly when that segment would be empty.  On a 256-sample
signal with step 64 and width 64 it produces exactly the four segments
`[0,64) [64,128) [128,192) [192,256)` and is then exhausted. -/
theorem length_segments_run :
    LengthSegments.init_segmentation ⟨64, some 64, none⟩ (some 256) = .ok ⟨64, 64, 0, 256⟩ ∧
    LengthSegments.init_segmentation ⟨64, none, none⟩ (some 256) = .ok ⟨64, 64, 0, 256⟩ ∧
    runLength 10 ⟨64, 64, 0, 256⟩ =
      [⟨0, 64, "", 256⟩, ⟨64, 128, "", 256⟩, ⟨128, 192, "", 256⟩, ⟨192, 256, "", 256⟩] ∧
    LengthSegments.next_segment ⟨64, 64, 256, 256⟩ = none ∧
    (∀ (st st' : LengthState) (s : Segment),
      LengthSegments.next_segment st = some (s, st') →
        s = ⟨st.i, st.i + st.width, "", st.siglen⟩ ∧
        st' = ⟨st.step, st.width, st.i + st.step, st.siglen⟩) ∧
    (∀ st : LengthState, LengthSegments.next_segment st = none ↔
      (Segment.mk st.i (st.i + st.width) "" st.siglen).is_empty = true) := by
  refine ⟨by rfl, by rfl, by rfl, by rfl, ?_, ?_⟩
  · intro st st' s h
    simp only [LengthSegments.next_segment] at h
    split at h
    case isTrue => cases h
    case isFalse =>
      injection h with h1
      injection h1 with h2 h3
      exact ⟨h2.symm, h3.symm⟩
  · intro st
    simp only [LengthSegments.next_segment]
    constructor
    · intro h
      split at h
      case isTrue hemp => exact hemp
      case isFalse => cases h
    · intro hemp
      rw [if_pos hemp]

/-- C7 witness: the general yield description evaluated on the first step
of the 256/64/64 run. -/
theorem length_segments_run_witness :
    (Segment.mk 0 64 "" 256 = ⟨(0 : ℤ), 0 + 64, "", 256⟩ ∧
      LengthState.mk 64 64 64 256 = ⟨64, 64, 0 + 64, 256⟩) ∧
    (LengthSegments.next_segment ⟨64, 64, 256, 256⟩ = none ↔
      (Segment.mk (256 : ℤ) (256 + 64) "" 256).is_empty = true) :=
  ⟨length_segments_run.2.2.2.2.1 ⟨64, 64, 0, 256⟩ ⟨64, 64, 64, 256⟩
      ⟨0, 64, "", 256⟩ (by decide),
    length_segments_run.2.2.2.2.2 ⟨64, 64, 256, 256⟩⟩

/-! ### C9 — unbound fixed-length-by-time policy -/

/-- C9 counterexample.  Invoking the fixed-length-by-time policy with no
bound signal does **not** fail with a usage error: `next_segment` prints a
`PhUI.w` warning and raises `StopIteration` (`.stop true`), i.e. iteration
terminates normally with a diagnostic. -/
theorem time_segments_unbound_stops :
    TimeSegments.next_segment (TimeSegments.init_segmentation ⟨1, none, none⟩ none) =
      .stop true :=
  rfl

/-- C9 amended.  Invoking the fixed-length-by-time policy while no signal
is bound emits a warning diagnostic and ends iteration immediately
(`StopIteration`), rather than raising a usage error; it is the
fixed-length-by-sample-count policy whose `init_segmentation` fails fast
(`ValueError`) when no signal is bound. -/
theorem unbound_policy_behavior :
    (∀ p : TimeParams,
      TimeSegments.next_segment (TimeSegments.init_segmentation p none) = .stop true) ∧
    (∀ p : LengthParams,
      exceptOk (LengthSegments.init_segmentation p none) = false) := by
  constructor
  · intro p
    rfl
  · intro p
    rfl

/-! ### C8 — PSD normalization to unit maximum -/

/-- Helper: the seed of a `foldl max` is a lower bound of the result. -/
theorem le_foldl_max (l : List ℚ) (a : ℚ) : a ≤ l.foldl max a := by
  induction l generalizing a with
  | nil => exact le_rfl
  | cons x t ih =>
    simp only [List.foldl_cons]
    exact le_trans (le_max_left a x) (ih (max a x))

/-- Helper: every element of the list is below its `foldl max`. -/
theorem mem_le_foldl_max (l : List ℚ) (x : ℚ) (hx : x ∈ l) :
    ∀ a : ℚ, x ≤ l.foldl max a := by
  induction l with
  | nil => cases hx
  | cons y t ih =>
    intro a
    simp only [List.foldl_cons]
    rcases List.mem_cons.mp hx with rfl | hmem
    · exact le_trans (le_max_right a x) (le_foldl_max t (max a x))
    · exact ih hmem (max a y)

/-- Helper: a `foldl max` result is the seed or one of the elements. -/
theorem foldl_max_mem (l : List ℚ) : ∀ a : ℚ, l.foldl max a = a ∨ l.foldl max a ∈ l := by
  induction l with
  | nil => exact fun a => Or.inl rfl
  | cons y t ih =>
    intro a
    simp only [List.foldl_cons]
    rcases ih (max a y) with h | h
    · rcases max_choice a y with hc | hc
      · exact Or.inl (by rw [h, hc])
      · exact Or.inr (by rw [h, hc]; exact List.mem_cons_self y t)
    · exact Or.inr (List.mem_cons_of_mem y h)

/-- Helper: `np_max` is an upper bound of the vector. -/
theorem le_np_max (l : List ℚ) (x : ℚ) (hx : x ∈ l) : x ≤ np_max l := by
  cases l with
  | nil => cases hx
  | cons y t =>
    show _ ≤ t.foldl max y
    rcases List.mem_cons.mp hx with rfl | hmem
    · exact le_foldl_max t x
    · exact mem_le_foldl_max t x hmem y

/-- Helper: `np_max` of a non-empty vector is one of its elements. -/
theorem np_max_mem (l : List ℚ) (hne : l ≠ []) : np_max l ∈ l := by
  cases l with
  | nil => exact absurd rfl hne
  | cons y t =>
    show t.foldl max y ∈ _
    rcases foldl_max_mem t y with h | h
    · rw [h]; exact List.mem_cons_self y t
    · exact List.mem_cons_of_mem y h

/-- Helper: `np_max` is the unique element that bounds the vector. -/
theorem np_max_eq_of (l : List ℚ) (c : ℚ) (hne : l ≠ [])
    (hub : ∀ x ∈ l, x ≤ c) (hc : c ∈ l) : np_max l = c :=
  le_antisymm (hub _ (np_max_mem l hne)) (le_np_max l c hc)

/-- C8.  Every PSD-family calculator — Welch (`PSDWelch1Calc`),
Lomb-Scargle, FFT-based and autoregressive — returns, for a non-empty
estimator output with positive maximum, exactly the powers divided by
their maximum (so the largest returned power equals 1) together with the
average-power convenience scalar `sum(powers)/len(powers)` as the third
component of its result triple. -/
theorem psd_unit_max_normalization (bands powers : List ℚ)
    (hne : powers ≠ []) (hpos : 0 < np_max powers) :
    PSDWelch1Calc.calculate_data bands powers =
      (bands, powers.map (fun p => p / np_max powers), powers.sum / (powers.length : ℚ)) ∧
    PSDLombscargleCalc.calculate_data bands powers =
      (bands, powers.map (fun p => p / np_max powers), powers.sum / (powers.length : ℚ)) ∧
    PSDFFTCalc.calculate_data bands powers =
      (bands, powers.map (fun p => p / np_max powers), powers.sum / (powers.length : ℚ)) ∧
    PSDAr2Calc.calculate_data bands powers =
      (bands, powers.map (fun p => p / np_max powers), powers.sum / (powers.length : ℚ)) ∧
    np_max (powers.map (fun p => p / np_max powers)) = 1 := by
  refine ⟨rfl, rfl, rfl, rfl, ?_⟩
  have hmem1 : (1 : ℚ) ∈ powers.map (fun p => p / np_max powers) :=
    List.mem_map.mpr ⟨np_max powers, np_max_mem powers hne, div_self (ne_of_gt hpos)⟩
  have hub : ∀ x ∈ powers.map (fun p => p / np_max powers), x ≤ 1 := by
    intro x hx
    rcases List.mem_map.mp hx with ⟨p, hp, rfl⟩
    exact (div_le_one hpos).mpr (le_np_max powers p hp)
  refine np_max_eq_of _ 1 ?_ hub hmem1
  intro hmap
  exact hne (List.map_eq_nil.mp hmap)

/-- C8 witness: the normalization post-condition on the concrete powers
vector `[1, 2, 4]`, the positive-maximum hypothesis discharged through
the membership of `1`. -/
theorem psd_unit_max_normalization_witness :
    PSDWelch1Calc.calculate_data [] [1, 2, 4] =
      ([], ([1, 2, 4] : List ℚ).map (fun p => p / np_max [1, 2, 4]),
        ([1, 2, 4] : List ℚ).sum / (([1, 2, 4] : List ℚ).length : ℚ)) ∧
    PSDLombscargleCalc.calculate_data [] [1, 2, 4] =
      ([], ([1, 2, 4] : List ℚ).map (fun p => p / np_max [1, 2, 4]),
        ([1, 2, 4] : List ℚ).sum / (([1, 2, 4] : List ℚ).length : ℚ)) ∧
    PSDFFTCalc.calculate_data [] [1, 2, 4] =
      ([], ([1, 2, 4] : List ℚ).map (fun p => p / np_max [1, 2, 4]),
        ([1, 2, 4] : List ℚ).sum / (([1, 2, 4] : List ℚ).length : ℚ)) ∧
    PSDAr2Calc.calculate_data [] [1, 2, 4] =
      ([], ([1, 2, 4] : List ℚ).map (fun p => p / np_max [1, 2, 4]),
        ([1, 2, 4] : List ℚ).sum / (([1, 2, 4] : List ℚ).length : ℚ)) ∧
    np_max (([1, 2, 4] : List ℚ).map (fun p => p / np_max [1, 2, 4])) = 1 :=
  psd_unit_max_normalization [] [1, 2, 4] (by simp)
    (lt_of_lt_of_le one_pos (le_np_max [1, 2, 4] 1 (by simp)))

/-! ### C10 — segmentation by index preserves per-sample timestamps -/

/-- Helper: the Boolean monotonicity test of `UnevenlySignal.__new__`
holds exactly for chains of strictly increasing consecutive elements. -/
theorem strictly_increasing_iff (xs : List ℚ) :
    strictly_increasing xs = true ↔ List.Chain' (· < ·) xs := by
  induction xs with
  | nil => simp [strictly_increasing, np_diff]
  | cons a t ih =>
    cases t with
    | nil => simp [strictly_increasing, np_diff]
    | cons b t2 =>
      have hd : np_diff (a :: b :: t2) = (b - a) :: np_diff (b :: t2) := rfl
      unfold strictly_increasing at ih ⊢
      rw [hd]
      simp only [List.all_cons, Bool.and_eq_true, decide_eq_true_eq,
        List.chain'_cons]
      exact and_congr sub_pos ih

/-- Helper: constructing an `UnevenlySignal` from indices succeeds when
the three validated conditions hold, and stores the arguments as they
are. -/
theorem UnevenlySignal.make_indices_ok (values xs : List ℚ) (fs : ℚ)
    (nm : String) (t0 : ℚ) (hlen : xs.length = values.length)
    (hmono : strictly_increasing xs = true) (hfs : 0 < fs) :
    UnevenlySignal.make values fs nm (some t0) xs XType.indices =
      .ok ⟨values, fs, nm, t0, xs⟩ := by
  unfold UnevenlySignal.make
  rw [if_pos hlen]
  simp only [hmono, if_true, if_pos hfs, Option.getD_some]

/-- Helper (C10, evenly-sampled variant): for a valid index range the
times of `segment_idx`'s result are the corresponding contiguous slice of
the original `get_times`, and the new start time is the time of the first
retained sample. -/
theorem segment_idx_times_even (s : EvenlySignal) (a b : ℕ)
    (ha : a < s.values.length) (hab : a ≤ b) (hb : b ≤ s.values.length) :
    (s.segment_idx a (some b)).get_times = (s.get_times.drop a).take (b - a) ∧
    (s.segment_idx a (some b)).start_time = s.get_times.getD a 0 := by
  refine ⟨?_, rfl⟩
  simp only [EvenlySignal.segment_idx, EvenlySignal.get_times, Option.getD_some]
  have hlen : ((s.values.drop a).take (b - a)).length = b - a := by
    simp only [List.length_take, List.length_drop]
    omega
  have hr : (List.range s.values.length)[a]? = some a := by
    rw [List.getElem?_eq_getElem (by simpa using ha), List.getElem_range]
  simp only [hlen, List.getD_eq_getElem?_getD, List.getElem?_map, hr,
    Option.map_some', Option.getD_some]
  rw [← List.map_drop, ← List.map_take]
  have hrange : ((List.range s.values.length).drop a).take (b - a) =
      (List.range (b - a)).map (fun k => a + k) := by
    conv_lhs =>
      rw [show s.values.length = a + (s.values.length - a) by omega,
        List.range_add]
    have hdrop : (List.range a ++ (List.range (s.values.length - a)).map
        (fun x => a + x)).drop a = (List.range (s.values.length - a)).map
        (fun x => a + x) := by
      simpa using List.drop_left (List.range a)
        ((List.range (s.values.length - a)).map (fun x => a + x))
    rw [hdrop, ← List.map_take, List.take_range,
      show min (b - a) (s.values.length - a) = b - a by omega]
  rw [hrange, List.map_map]
  apply List.map_congr_left
  intro k hk
  simp only [Function.comp_apply]
  push_cast
  ring

/-- Helper (C10, unevenly-sampled variant): when both `np.where` lookups
succeed (positions `iS` and `iT` with `iS ≤ iT`), `segment_idx` returns
normally and the result's times are the contiguous slice of the original
`get_times` at positions `iS .. iT`, its start time is the time of the
first retained sample, and its first retained (rebased) index is 0. -/
theorem segment_idx_times_uneven (u : UnevenlySignal) (x1 x2 : ℚ) (iS iT : ℕ)
    (hlen : u.indices.length = u.values.length)
    (hmono : List.Chain' (· < ·) u.indices)
    (hfs : 0 < u.sampling_freq)
    (hfind : ((List.range u.indices.length).filter
      (fun i => decide (x1 ≤ u.indices.getD i 0))).head? = some iS)
    (hlast : ((List.range u.indices.length).filter
      (fun i => decide (u.indices.getD i 0 < x2))).getLast? = some iT)
    (hle : iS ≤ iT) :
    (u.segment_idx x1 (some x2)).map UnevenlySignal.get_times =
      .ok ((u.get_times.drop iS).take (iT + 1 - iS)) ∧
    (u.segment_idx x1 (some x2)).map UnevenlySignal.get_start_time =
      .ok (u.get_times.getD iS 0) ∧
    (u.segment_idx x1 (some x2)).map (fun w => w.indices.headD 0) = .ok 0 := by
  have hiSmem : iS ∈ (List.range u.indices.length).filter
      (fun i => decide (x1 ≤ u.indices.getD i 0)) :=
    List.mem_of_mem_head? (by rw [Option.mem_def, hfind])
  have hiS : iS < u.indices.length := by
    have := (List.mem_filter.mp hiSmem).1
    simpa using this
  have hfilt_ne : (List.range u.indices.length).filter
      (fun i => decide (u.indices.getD i 0 < x2)) ≠ [] := by
    intro hnil
    rw [hnil] at hlast
    cases hlast
  have hiTmem : iT ∈ (List.range u.indices.length).filter
      (fun i => decide (u.indices.getD i 0 < x2)) := by
    have hg := List.getLast?_eq_getLast _ hfilt_ne
    rw [hg] at hlast
    injection hlast with h1
    rw [← h1]
    exact List.getLast_mem hfilt_ne
  have hiT : iT < u.indices.length := by
    have := (List.mem_filter.mp hiTmem).1
    simpa using this
  have hplen : ((u.indices.drop iS).take (iT + 1 - iS)).length = iT + 1 - iS := by
    simp only [List.length_take, List.length_drop]
    omega
  have hvlen : ((u.values.drop iS).take (iT + 1 - iS)).length = iT + 1 - iS := by
    simp only [List.length_take, List.length_drop]
    omega
  have hpne : (u.indices.drop iS).take (iT + 1 - iS) ≠ [] := by
    rw [← List.length_pos, hplen]
    omega
  have hp0 : ((u.indices.drop iS).take (iT + 1 - iS)).headD 0 =
      u.indices.getD iS 0 := by
    rw [List.headD_eq_head?, List.head?_eq_getElem?, List.getElem?_take,
      if_pos (show 0 < iT + 1 - iS by omega), List.getElem?_drop,
      Nat.add_zero, List.getD_eq_getElem?_getD]
  have hsub : ((u.indices.drop iS).take (iT + 1 - iS)).Sublist u.indices :=
    (List.take_sublist _ _).trans (List.drop_sublist _ _)
  have hchainP : List.Chain' (· < ·) ((u.indices.drop iS).take (iT + 1 - iS)) :=
    List.chain'_iff_pairwise.mpr ((List.chain'_iff_pairwise.mp hmono).sublist hsub)
  have hmonoR : strictly_increasing
      (((u.indices.drop iS).take (iT + 1 - iS)).map
        (fun x => x - ((u.indices.drop iS).take (iT + 1 - iS)).headD 0)) = true := by
    rw [strictly_increasing_iff, List.chain'_map]
    exact hchainP.imp (fun a b h => by simpa [sub_lt_sub_iff_right] using h)
  have ht0 : u.get_times.getD iS 0 =
      u.indices.getD iS 0 / u.sampling_freq + u.start_time := by
    have hr : u.indices[iS]? = some (u.indices.getD iS 0) := by
      simp [List.getD_eq_getElem?_getD, List.getElem?_eq_getElem hiS]
    unfold UnevenlySignal.get_times
    rw [List.getD_eq_getElem?_getD, List.getElem?_map, hr, Option.map_some',
      Option.getD_some]
  have hseg : u.segment_idx x1 (some x2) =
      .ok ⟨(u.values.drop iS).take (iT + 1 - iS), u.sampling_freq,
        u.signal_nature, u.get_times.getD iS 0,
        ((u.indices.drop iS).take (iT + 1 - iS)).map
          (fun x => x - ((u.indices.drop iS).take (iT + 1 - iS)).headD 0)⟩ := by
    unfold UnevenlySignal.segment_idx
    simp only [Option.getD_some]
    rw [hfind, hlast]
    exact UnevenlySignal.make_indices_ok _ _ _ _ _
      (by rw [List.length_map, hplen, hvlen]) hmonoR hfs
  refine ⟨?_, ?_, ?_⟩
  · rw [hseg]
    simp only [Except.map]
    congr 1
    simp only [UnevenlySignal.get_times, List.map_map]
    conv_rhs => rw [← List.map_drop, ← List.map_take]
    apply List.map_congr_left
    intro x hx
    simp only [Function.comp_apply]
    unfold UnevenlySignal.get_times at ht0
    rw [ht0, hp0, sub_div]
    ring
  · rw [hseg]
    simp [Except.map, UnevenlySignal.get_start_time]
  · rw [hseg]
    simp only [Except.map]
    congr 1
    rw [List.headD_eq_head?, List.head?_map]
    obtain ⟨p0, rest, hport⟩ := List.exists_cons_of_ne_nil hpne
    rw [hport]
    simp

/-- C10.  Segmentation by index preserves per-sample timestamps.  For the
evenly-sampled variant, for every valid index range the times of the
`segment_idx` result equal the corresponding contiguous slice of the
original `get_times`, and the new start time is the time of the first
retained sample.  For the unevenly-sampled variant, whenever the two
`np.where` lookups locate positions `iS ≤ iT`, the call returns normally,
the result's times are the slice of the original `get_times` at positions
`iS .. iT`, the new start time is the time of the first retained sample,
and the retained indices are rebased so the first one is 0. -/
theorem segment_idx_preserves_times :
    (∀ (s : EvenlySignal) (a b : ℕ),
      a < s.values.length → a ≤ b → b ≤ s.values.length →
      (s.segment_idx a (some b)).get_times = (s.get_times.drop a).take (b - a) ∧
      (s.segment_idx a (some b)).start_time = s.get_times.getD a 0) ∧
    (∀ (u : UnevenlySignal) (x1 x2 : ℚ) (iS iT : ℕ),
      u.indices.length = u.values.length →
      List.Chain' (· < ·) u.indices →
      0 < u.sampling_freq →
      ((List.range u.indices.length).filter
        (fun i => decide (x1 ≤ u.indices.getD i 0))).head? = some iS →
      ((List.range u.indices.length).filter
        (fun i => decide (u.indices.getD i 0 < x2))).getLast? = some iT →
      iS ≤ iT →
      (u.segment_idx x1 (some x2)).map UnevenlySignal.get_times =
        .ok ((u.get_times.drop iS).take (iT + 1 - iS)) ∧
      (u.segment_idx x1 (some x2)).map UnevenlySignal.get_start_time =
        .ok (u.get_times.getD iS 0) ∧
      (u.segment_idx x1 (some x2)).map (fun w => w.indices.headD 0) = .ok 0) :=
  ⟨segment_idx_times_even, segment_idx_times_uneven⟩

/-- C10 witness: a 4-sample evenly signal segmented at `[1, 3)`, and a
3-sample uneven signal with indices `[0, 3, 7]` segmented on the index
interval `[1, 8)` (retained positions 1 and 2). -/
theorem segment_idx_preserves_times_witness :
    (((⟨[1, 2, 3, 4], 2, "", 0⟩ : EvenlySignal).segment_idx 1 (some 3)).get_times =
        (((⟨[1, 2, 3, 4], 2, "", 0⟩ : EvenlySignal).get_times.drop 1).take (3 - 1)) ∧
      ((⟨[1, 2, 3, 4], 2, "", 0⟩ : EvenlySignal).segment_idx 1 (some 3)).start_time =
        (⟨[1, 2, 3, 4], 2, "", 0⟩ : EvenlySignal).get_times.getD 1 0) ∧
    (((⟨[5, 6, 7], 10, "", 0, [0, 3, 7]⟩ : UnevenlySignal).segment_idx 1 (some 8)).map
        UnevenlySignal.get_times =
      .ok (((⟨[5, 6, 7], 10, "", 0, [0, 3, 7]⟩ : UnevenlySignal).get_times.drop 1).take
        (2 + 1 - 1)) ∧
      ((⟨[5, 6, 7], 10, "", 0, [0, 3, 7]⟩ : UnevenlySignal).segment_idx 1 (some 8)).map
        UnevenlySignal.get_start_time =
      .ok ((⟨[5, 6, 7], 10, "", 0, [0, 3, 7]⟩ : UnevenlySignal).get_times.getD 1 0) ∧
      ((⟨[5, 6, 7], 10, "", 0, [0, 3, 7]⟩ : UnevenlySignal).segment_idx 1 (some 8)).map
        (fun w => w.indices.headD 0) = .ok 0) :=
  ⟨segment_idx_preserves_times.1 ⟨[1, 2, 3, 4], 2, "", 0⟩ 1 3
      (by norm_num) (by norm_num) (by norm_num),
    segment_idx_preserves_times.2 ⟨[5, 6, 7], 10, "", 0, [0, 3, 7]⟩ 1 8 1 2
      rfl (by simp only [List.chain'_cons, List.chain'_singleton, and_true]; norm_num)
      (by norm_num) (by decide) (by decide) (by norm_num)⟩

end PyPhysio
